import Mathlib

/-!
Shallow embedding of the EVA vault block-discovery and event-aggregation code
(src/block-discovery.js, the app controller embedded in
src/BLOCK_DISCOVERY_GUIDE.md, and the indexed-source consolidation in
src/README.md), together with theorems settling the frozen claims about it.

Conventions:
* JS numbers used as block indices in the binary searches are modelled as `Int`
  (the searches genuinely use the value -1 and negative bounds); block indices
  in the chunk loops, which stay non-negative, are modelled as `Nat`.
* `BigInt` token quantities are modelled as `Int`.
* A JS `while`/recursive function whose termination is in question is modelled
  with an explicit fuel parameter returning `Option` (`none` = the recursion
  did not finish within the given fuel; a result independent of all
  sufficiently large fuel is the function's value).
* The query provider is modelled as a pure function from a block interval to
  `Except JsError (List L)` (the log list), mirroring `provider.getLogs`;
  `JsError` carries the JS error message string, and the source's
  `error.message.includes(...)` tests are modelled by substring search.
* JS `Map` objects keyed by address are modelled as `String → Option v`.
* The field `end` of the JS range records is a Lean keyword and is renamed
  `stop`; all other source names are kept.
-/

set_option maxRecDepth 100000

/-- JS `Error` as the code observes it: only the `message` string is used. -/
structure JsError where
  message : String
deriving DecidableEq

/-- `pat.isPrefixOf l || ...` over all suffixes: JS `String.includes(pat)`
on the character list of the haystack. -/
def listIncludes (pat : List Char) : List Char → Bool
  | [] => pat.isPrefixOf []
  | c :: rest => pat.isPrefixOf (c :: rest) || listIncludes pat rest

/-- JS `s.includes(pat)`. -/
def strIncludes (s pat : String) : Bool :=
  listIncludes pat.data s.data

/-- src/block-discovery.js line 136: `error.message.includes('query exceeds')`,
the recognized range/result-size violation test. -/
def isRangeSizeError (e : JsError) : Bool :=
  strIncludes e.message "query exceeds"

/-- BLOCK_DISCOVERY_GUIDE.md line 308 (app controller copy):
`error.message.includes('query exceeds') || error.message.includes('max results')`. -/
def isRangeSizeErrorApp (e : JsError) : Bool :=
  strIncludes e.message "query exceeds" || strIncludes e.message "max results"

/-! ## RangeProbe: checkBlockRangeForActivity

`provider fromBlock toBlock` models `provider.getLogs(filter)` for the fixed
topic set: `.ok logs` is a successful query, `.error e` a thrown JS error.
The embedding is instrumented: it also returns the list of `(fromBlock,
toBlock)` intervals queried on the provider, in order, so that "no splitting
happened" is expressible. Logs are represented by their block numbers. -/

/-- src/block-discovery.js lines 121-145, `checkBlockRangeForActivity`:
query the range; on a recognized range-size error split at the midpoint and
recurse on both halves, OR-ing the results; any other error propagates
(is re-thrown). Fuel-instrumented; `none` means the recursion did not
terminate within `fuel` steps. -/
def checkBlockRangeForActivity (provider : Nat → Nat → Except JsError (List Nat)) :
    Nat → Nat → Nat → Option (List (Nat × Nat) × Except JsError Bool)
  | 0, _, _ => none
  | fuel + 1, fromBlock, toBlock =>
    match provider fromBlock toBlock with
    | .ok logs => some ([(fromBlock, toBlock)], .ok (decide (logs.length > 0)))
    | .error e =>
      if isRangeSizeError e then
        let midPoint := (fromBlock + toBlock) / 2
        match checkBlockRangeForActivity provider fuel fromBlock midPoint with
        | none => none
        | some (t1, .error e1) => some ((fromBlock, toBlock) :: t1, .error e1)
        | some (t1, .ok firstHalf) =>
          match checkBlockRangeForActivity provider fuel (midPoint + 1) toBlock with
          | none => none
          | some (t2, .error e2) => some ((fromBlock, toBlock) :: (t1 ++ t2), .error e2)
          | some (t2, .ok secondHalf) =>
            some ((fromBlock, toBlock) :: (t1 ++ t2), .ok (firstHalf || secondHalf))
      else
        some ([(fromBlock, toBlock)], .error e)

/-- BLOCK_DISCOVERY_GUIDE.md lines 293-320, the app controller's copy of
`checkBlockRangeForActivity`: same midpoint splitting, but with the guard
`if (midPoint === fromBlock) return false` before recursing, and any
non-range error is logged and turned into `return false` instead of being
re-thrown. -/
def checkBlockRangeForActivityApp (provider : Nat → Nat → Except JsError (List Nat)) :
    Nat → Nat → Nat → Option (List (Nat × Nat) × Except JsError Bool)
  | 0, _, _ => none
  | fuel + 1, fromBlock, toBlock =>
    match provider fromBlock toBlock with
    | .ok logs => some ([(fromBlock, toBlock)], .ok (decide (logs.length > 0)))
    | .error e =>
      if isRangeSizeErrorApp e then
        let midPoint := (fromBlock + toBlock) / 2
        if midPoint = fromBlock then some ([(fromBlock, toBlock)], .ok false)
        else
          match checkBlockRangeForActivityApp provider fuel fromBlock midPoint with
          | none => none
          | some (t1, .error e1) => some ((fromBlock, toBlock) :: t1, .error e1)
          | some (t1, .ok firstHalf) =>
            match checkBlockRangeForActivityApp provider fuel (midPoint + 1) toBlock with
            | none => none
            | some (t2, .error e2) => some ((fromBlock, toBlock) :: (t1 ++ t2), .error e2)
            | some (t2, .ok secondHalf) =>
              some ((fromBlock, toBlock) :: (t1 ++ t2), .ok (firstHalf || secondHalf))
      else
        some ([(fromBlock, toBlock)], .ok false)

/-- A provider that always throws the recognized range-size error
(result-count limits can make even a single-block query fail this way). -/
def alwaysRangeErrProvider : Nat → Nat → Except JsError (List Nat) :=
  fun _ _ => .error ⟨"query exceeds max results"⟩

/-- A provider that always fails with a non-range (network) error. -/
def netErrProvider : Nat → Nat → Except JsError (List Nat) :=
  fun _ _ => .error ⟨"connection timeout"⟩

/-! ## ActivityBoundaryFinder: the binary searches

Both searches (src/block-discovery.js lines 83-118, identical in effect to the
app controller copy at guide lines 255-291) run over JS numbers that can reach
-1, so they are modelled on `Int`.  `act b = true` says block `b` contains a
watched event; `hasActivityRange act a b` is the success path of
`checkBlockRangeForActivity a b` (provider returns the logs of `[a,b]`, and
the probe is `logs.length > 0`, i.e. some block of `[a,b]` has an event). -/

/-- `act a || act (a+1) || ... ` over `n` consecutive blocks. -/
def anyInRange (act : Int → Bool) (a : Int) : Nat → Bool
  | 0 => false
  | n + 1 => act a || anyInRange act (a + 1) n

/-- Some block of the inclusive interval `[a, b]` has a watched event:
the error-free behaviour of `checkBlockRangeForActivity(a, b)`. -/
def hasActivityRange (act : Int → Bool) (a b : Int) : Bool :=
  anyInRange act a (b + 1 - a).toNat

/-- src/block-discovery.js line 8: `this.maxBlockRange = 10000`
(the guide's app controller, line 184, uses the same value). -/
def maxBlockRange : Nat := 10000

/-- The `while` loop of `binarySearchFirstActivity` (src/block-discovery.js
lines 86-96): probe the window `[mid, min(mid + maxBlockRange, right)]`;
on a hit record `mid` and search `[left, mid-1]`, on a miss continue with
`left = mid + maxBlockRange + 1`.  `result` is the mutable `result` variable. -/
def bsFirstLoop (act : Int → Bool) : Nat → Int → Int → Int → Option Int
  | 0, left, right, result => if left ≤ right then none else some result
  | fuel + 1, left, right, result =>
    if left ≤ right then
      let mid := (left + right).fdiv 2
      if hasActivityRange act mid (min (mid + (maxBlockRange : Int)) right) then
        bsFirstLoop act fuel left (mid - 1) mid
      else
        bsFirstLoop act fuel (mid + (maxBlockRange : Int) + 1) right result
    else some result

/-- src/block-discovery.js lines 83-99, `binarySearchFirstActivity`:
`result` starts at -1. -/
def binarySearchFirstActivity (act : Int → Bool) (fuel : Nat) (left right : Int) : Option Int :=
  bsFirstLoop act fuel left right (-1)

/-- The `while` loop of `binarySearchLastActivity` (src/block-discovery.js
lines 105-115): probe the window `[max(mid - maxBlockRange, left), mid]`;
on a hit record `mid` and continue with `left = mid + 1`, on a miss continue
with `right = mid - maxBlockRange - 1`. -/
def bsLastLoop (act : Int → Bool) : Nat → Int → Int → Int → Option Int
  | 0, left, right, result => if left ≤ right then none else some result
  | fuel + 1, left, right, result =>
    if left ≤ right then
      let mid := (left + right).fdiv 2
      if hasActivityRange act (max (mid - (maxBlockRange : Int)) left) mid then
        bsLastLoop act fuel (mid + 1) right mid
      else
        bsLastLoop act fuel left (mid - (maxBlockRange : Int) - 1) result
    else some result

/-- src/block-discovery.js lines 102-118, `binarySearchLastActivity`:
`result` starts at `left`. -/
def binarySearchLastActivity (act : Int → Bool) (fuel : Nat) (left right : Int) : Option Int :=
  bsLastLoop act fuel left right left

/-- The boundary record pushed by `findActivityBoundaries`
(src/block-discovery.js lines 72-76): `{start, end, totalBlocks}`. -/
structure ActivityBoundary where
  start : Int
  stop : Int
  totalBlocks : Int
deriving DecidableEq

/-- src/block-discovery.js lines 62-80, `findActivityBoundaries`: find the
first active block; if none (`-1`), return no boundaries; otherwise find the
last active block searching from the first one, and return the single
boundary record. -/
def findActivityBoundaries (act : Int → Bool) (fuel : Nat) (fromBlock toBlock : Int) :
    Option (List ActivityBoundary) :=
  match binarySearchFirstActivity act fuel fromBlock toBlock with
  | none => none
  | some firstActive =>
    if firstActive = -1 then some []
    else
      match binarySearchLastActivity act fuel firstActive toBlock with
      | none => none
      | some lastActive =>
        some [⟨firstActive, lastActive, lastActive - firstActive + 1⟩]

/-- Scenario A's provider activity: watched events exactly in blocks
800000-800050. -/
def scenarioAAct : Int → Bool :=
  fun i => if 800000 ≤ i ∧ i ≤ 800050 then true else false

/-- Activity exactly at blocks 0 and 50. -/
def twoSpikesAct : Int → Bool :=
  fun i => if i = 0 ∨ i = 50 then true else false

/-! ## RangeSubdivider: subdivideActiveRegion -/

/-- The range record pushed by `subdivideActiveRegion`
(src/block-discovery.js lines 158-162): `{start, end, blocks}`
(`end` renamed `stop`). -/
structure ActiveRange where
  start : Nat
  stop : Nat
  blocks : Nat
deriving DecidableEq

/-- src/block-discovery.js line 150:
`const chunkSize = Math.min(this.maxBlockRange, 5000)`. -/
def subdivideChunkSize : Nat := min maxBlockRange 5000

/-- The `for` loop of `subdivideActiveRegion` (src/block-discovery.js lines
152-165): walk `i` from `startBlock` in steps of `chunkSize`; for each chunk
`[i, min(i + chunkSize - 1, endBlock)]` keep the range record iff the probe
`hasAct i rangeEnd` confirms activity.  `hasAct` abstracts
`checkBlockRangeForActivity` (an arbitrary range oracle). -/
def subdivideLoop (hasAct : Nat → Nat → Bool) (endBlock : Nat) (i : Nat) :
    List ActiveRange :=
  if h : i ≤ endBlock then
    let rangeEnd := min (i + subdivideChunkSize - 1) endBlock
    let rest := subdivideLoop hasAct endBlock (i + subdivideChunkSize)
    if hasAct i rangeEnd then ⟨i, rangeEnd, rangeEnd - i + 1⟩ :: rest else rest
  else []
termination_by endBlock + 1 - i
decreasing_by
  have hc : subdivideChunkSize = 5000 := rfl
  omega

/-- src/block-discovery.js lines 148-168, `subdivideActiveRegion`. -/
def subdivideActiveRegion (hasAct : Nat → Nat → Bool) (startBlock endBlock : Nat) :
    List ActiveRange :=
  subdivideLoop hasAct endBlock startBlock

/-! ## Indexed-source consolidation: consolidateBlockRanges (src/README.md) -/

/-- `{start, end}` interval produced by `consolidateBlockRanges`
(`end` renamed `stop`). -/
structure BlockRange where
  start : Nat
  stop : Nat
deriving DecidableEq

/-- The loop of `consolidateBlockRanges` (src/README.md lines 228-243):
`acc` is the `ranges` array, `rangeStart`/`rangeEnd` the mutable current
range; a block within `maxGap` of `rangeEnd` extends the current range,
otherwise the current range is pushed and a new one starts. -/
def consolidateLoop (maxGap : Nat) (acc : List BlockRange) (rangeStart rangeEnd : Nat) :
    List Nat → List BlockRange
  | [] => acc ++ [⟨rangeStart, rangeEnd⟩]
  | currentBlock :: rest =>
    if currentBlock - rangeEnd ≤ maxGap then
      consolidateLoop maxGap acc rangeStart currentBlock rest
    else
      consolidateLoop maxGap (acc ++ [⟨rangeStart, rangeEnd⟩]) currentBlock currentBlock rest

/-- src/README.md lines 221-245, `consolidateBlockRanges` (default
`maxGap = 100` is passed explicitly here). -/
def consolidateBlockRanges (blockNumbers : List Nat) (maxGap : Nat) : List BlockRange :=
  match blockNumbers with
  | [] => []
  | b :: rest => consolidateLoop maxGap [] b b rest

/-! ## TransferInferenceAdapter: processTransferEvents
(BLOCK_DISCOVERY_GUIDE.md lines 1546-1586) -/

/-- Decoded `Transfer(from, to, value)` arguments (`from`/`to` are Lean
keywords or near-keywords; renamed `fromAddr`/`toAddr`). -/
structure TransferEvent where
  fromAddr : String
  toAddr : String
  value : Int
deriving DecidableEq

/-- The `args` of a synthetic deposit pushed for a mint
(guide lines 1558-1566): `{sender: to, owner: to, assets: value, shares: value}`. -/
structure ConvertedDeposit where
  sender : String
  owner : String
  assets : Int
  shares : Int
deriving DecidableEq

/-- The `args` of a synthetic withdrawal pushed for a burn (guide lines
1570-1579): `{sender: from, receiver: from, owner: from, assets: value,
shares: value}`. -/
structure ConvertedWithdraw where
  sender : String
  receiver : String
  owner : String
  assets : Int
  shares : Int
deriving DecidableEq

/-- Guide line 1551: the zero-address mint/burn sentinel. -/
def zeroAddress : String := "0x0000000000000000000000000000000000000000"

/-- The body of the `transferEvents.forEach` callback (guide lines
1553-1582): a transfer from the zero address pushes a synthetic deposit for
`to`, a transfer to the zero address pushes a synthetic withdrawal for
`from`, each with `assets = shares = value`; a transfer between two non-zero
addresses pushes nothing. -/
def transferConvertStep (acc : List ConvertedDeposit × List ConvertedWithdraw)
    (event : TransferEvent) : List ConvertedDeposit × List ConvertedWithdraw :=
  if event.fromAddr = zeroAddress ∧ event.toAddr ≠ zeroAddress then
    (acc.1 ++ [⟨event.toAddr, event.toAddr, event.value, event.value⟩], acc.2)
  else if event.fromAddr ≠ zeroAddress ∧ event.toAddr = zeroAddress then
    (acc.1, acc.2 ++ [⟨event.fromAddr, event.fromAddr, event.fromAddr, event.value, event.value⟩])
  else acc

/-- BLOCK_DISCOVERY_GUIDE.md lines 1546-1586, `processTransferEvents`:
fold every Transfer log through `transferConvertStep`, starting from empty
`depositEvents`/`withdrawEvents` arrays. -/
def processTransferEvents (transferEvents : List TransferEvent) :
    List ConvertedDeposit × List ConvertedWithdraw :=
  transferEvents.foldl transferConvertStep ([], [])

/-! ## PositionLedger: processRealEventData
(BLOCK_DISCOVERY_GUIDE.md lines 729-801)

Timestamps: the code turns `blockTime` (seconds) into a `Date` via
`new Date(blockTime * 1000)` and compares Dates; `t ↦ Date(t*1000)` is
strictly monotone, so comparisons are modelled directly on the `Nat`
timestamp.  `getBlockTimestamp` is the `ts` oracle parameter. -/

/-- The per-address record stored in the `addressData` map
(guide lines 751-760). -/
structure PositionData where
  address : String
  totalDeposits : Int
  totalWithdrawals : Int
  totalShares : Int
  firstDeposit : Nat
  lastActivity : Nat
  depositCount : Nat
  withdrawalCount : Nat
deriving DecidableEq

/-- The `addressData` JS `Map`. -/
def AddressMap : Type := String → Option PositionData

/-- The fresh record inserted when an address is first seen
(guide lines 751-760 and 782-791): zero totals and
`firstDeposit = lastActivity = blockTime`. -/
def seedPosition (owner : String) (blockTime : Nat) : PositionData :=
  ⟨owner, 0, 0, 0, blockTime, blockTime, 0, 0⟩

/-- A decoded Deposit/Withdraw event as the ledger consumes it:
`event.args` plus `event.blockNumber`. -/
structure VaultEvent where
  owner : String
  assets : Int
  shares : Int
  blockNumber : Nat
deriving DecidableEq

/-- One iteration of the deposit loop (guide lines 743-771):
create the entry if absent, then `totalDeposits += assets`,
`totalShares += shares`, `depositCount++`, pull `firstDeposit` back and push
`lastActivity` forward to the event's time. -/
def applyDepositEvent (ts : Nat → Nat) (m : AddressMap) (event : VaultEvent) : AddressMap :=
  let blockTime := ts event.blockNumber
  let data := (m event.owner).getD (seedPosition event.owner blockTime)
  let d1 : PositionData :=
    { data with
        totalDeposits := data.totalDeposits + event.assets
        totalShares := data.totalShares + event.shares
        depositCount := data.depositCount + 1 }
  let d2 : PositionData :=
    if blockTime < d1.firstDeposit then { d1 with firstDeposit := blockTime } else d1
  let d3 : PositionData :=
    if d2.lastActivity < blockTime then { d2 with lastActivity := blockTime } else d2
  fun k => if k = event.owner then some d3 else m k

/-- One iteration of the withdrawal loop (guide lines 775-801):
create the entry if absent, then `totalWithdrawals += assets`,
`totalShares -= shares`, `withdrawalCount++`, push `lastActivity` forward;
`firstDeposit` is never touched. -/
def applyWithdrawEvent (ts : Nat → Nat) (m : AddressMap) (event : VaultEvent) : AddressMap :=
  let blockTime := ts event.blockNumber
  let data := (m event.owner).getD (seedPosition event.owner blockTime)
  let d1 : PositionData :=
    { data with
        totalWithdrawals := data.totalWithdrawals + event.assets
        totalShares := data.totalShares - event.shares
        withdrawalCount := data.withdrawalCount + 1 }
  let d2 : PositionData :=
    if d1.lastActivity < blockTime then { d1 with lastActivity := blockTime } else d1
  fun k => if k = event.owner then some d2 else m k

/-- BLOCK_DISCOVERY_GUIDE.md lines 729-801, the aggregation core of
`processRealEventData`: throw if both event lists are empty, otherwise fold
all deposit events and then all withdrawal events into the address map. -/
def processRealEventData (ts : Nat → Nat) (depositEvents withdrawEvents : List VaultEvent) :
    Except String AddressMap :=
  if depositEvents.length = 0 ∧ withdrawEvents.length = 0 then
    .error "No deposit or withdrawal events found for this vault. The vault may be new or inactive."
  else
    .ok (withdrawEvents.foldl (applyWithdrawEvent ts)
          (depositEvents.foldl (applyDepositEvent ts) (fun _ => none)))

/-- Guide line 812: the reported net position
`netAssets = totalDeposits - totalWithdrawals`. -/
def netAssets (p : PositionData) : Int :=
  p.totalDeposits - p.totalWithdrawals

/-! ## ChunkedLogScanner: scanByChunksWithTopics
(BLOCK_DISCOVERY_GUIDE.md lines 1477-1544)

Logs are an abstract type `L`; `parse log` models
`iface.parseLog(log)`, returning the decoded event name or `none` when
parsing throws.  The scan is instrumented with the ordered list of
`(fromBlock, toBlock)` intervals sent to `provider.getLogs`. -/

/-- Guide line 1487: `const chunkSize = 2000`. -/
def scanChunkSize : Nat := 2000

/-- The log-classification loop (guide lines 1521-1536): parsed name
`Deposit`/`DepositMade` goes to the deposit bucket, `Withdraw`/
`WithdrawalMade` to the withdrawal bucket, `Transfer` to the transfer
bucket; `VaultUpdate` and unknown or unparseable logs are dropped. -/
def classifyLog {L : Type} (parse : L → Option String) (acc : List L × List L × List L)
    (log : L) : List L × List L × List L :=
  match parse log with
  | some n =>
    if n = "Deposit" ∨ n = "DepositMade" then (acc.1 ++ [log], acc.2.1, acc.2.2)
    else if n = "Withdraw" ∨ n = "WithdrawalMade" then (acc.1, acc.2.1 ++ [log], acc.2.2)
    else if n = "Transfer" then (acc.1, acc.2.1, acc.2.2 ++ [log])
    else acc
  | none => acc

/-- The chunk loop of `scanByChunksWithTopics` (guide lines 1493-1540):
chunks of `scanChunkSize`; on a provider failure for a chunk longer than 500
blocks, split once at the midpoint and query each half directly, an error on
a half contributing `[]` (`.catch(() => [])`); on a failure for a short
chunk, skip it.  All surviving logs are classified into the three buckets. -/
def scanChunksLoop {L : Type} (provider : Nat → Nat → Except JsError (List L))
    (parse : L → Option String) (toBlock : Nat) (start : Nat)
    (acc : (List L × List L × List L) × List (Nat × Nat)) :
    (List L × List L × List L) × List (Nat × Nat) :=
  if h : start ≤ toBlock then
    let endB := min (start + scanChunkSize - 1) toBlock
    let next :=
      match provider start endB with
      | .ok logs => (logs.foldl (classifyLog parse) acc.1, acc.2 ++ [(start, endB)])
      | .error _ =>
        if endB - start > 500 then
          let mid := (start + endB) / 2
          let first := match provider start mid with | .ok l => l | .error _ => []
          let second := match provider (mid + 1) endB with | .ok l => l | .error _ => []
          ((first ++ second).foldl (classifyLog parse) acc.1,
           acc.2 ++ [(start, endB), (start, mid), (mid + 1, endB)])
        else
          (acc.1, acc.2 ++ [(start, endB)])
    scanChunksLoop provider parse toBlock (start + scanChunkSize) next
  else acc
termination_by toBlock + 1 - start
decreasing_by
  have hc : scanChunkSize = 2000 := rfl
  omega

/-- BLOCK_DISCOVERY_GUIDE.md lines 1477-1544, `scanByChunksWithTopics`:
returns `(depositEvents, withdrawEvents, transferEvents)` together with the
ordered provider-query trace. -/
def scanByChunksWithTopics {L : Type} (provider : Nat → Nat → Except JsError (List L))
    (parse : L → Option String) (fromBlock toBlock : Nat) :
    (List L × List L × List L) × List (Nat × Nat) :=
  scanChunksLoop provider parse toBlock fromBlock (([], [], []), [])

/-! ## Specification-side predicates used in claim statements -/

/-- The clustering property claimed for `consolidateBlockRanges`, as a
relation on consecutive input block numbers `x` then `y`: if the gap is
within `maxGap` the two blocks lie inside one returned interval; if the gap
exceeds `maxGap` a returned interval ends exactly at `x` and the next one
starts exactly at `y`. -/
def gapBoundaryRel (maxGap : Nat) (ranges : List BlockRange) (x y : Nat) : Prop :=
  if y - x ≤ maxGap then
    ∃ r ∈ ranges, r.start ≤ x ∧ y ≤ r.stop
  else
    ∃ pre ra rb post, ranges = pre ++ ra :: rb :: post ∧ ra.stop = x ∧ rb.start = y

/-- Concrete provider for the Scenario B witness: the chunk [5000, 6999]
fails with the range error, its two halves succeed. -/
def scenarioBProvider : Nat → Nat → Except JsError (List Nat) :=
  fun a b =>
    if a = 5000 ∧ b = 6999 then .error ⟨"query exceeds max results"⟩
    else if a = 5000 ∧ b = 5999 then .ok [0]
    else if a = 6000 ∧ b = 6999 then .ok [1, 2]
    else .ok []

/-- Concrete decoder for the Scenario B witness: log 0 decodes as a Deposit,
all others as Transfers. -/
def scenarioBParse : Nat → Option String :=
  fun n => if n = 0 then some "Deposit" else some "Transfer"

/-! # Theorems -/

/-! ## Helper lemmas -/

/-- A fold of `transferConvertStep` over transfers that never touch the zero
address leaves the accumulator unchanged. -/
theorem transferFold_nonzero (ts : List TransferEvent) :
    ∀ acc, (∀ t ∈ ts, t.fromAddr ≠ zeroAddress ∧ t.toAddr ≠ zeroAddress) →
      ts.foldl transferConvertStep acc = acc := by
  induction ts with
  | nil => intro acc _; rfl
  | cons t rest ih =>
    intro acc h
    have ht := h t (by simp)
    have hstep : transferConvertStep acc t = acc := by
      simp [transferConvertStep, ht.1, ht.2]
    rw [List.foldl_cons, hstep]
    exact ih acc (fun u hu => h u (by simp [hu]))

/-- Claim C6 (Scenario C): for the transfers (zero→X, 100), (X→Y, 40),
(Y→zero, 60) with X and Y non-zero, `processTransferEvents` produces exactly
one synthetic deposit for X with `assets = shares = 100` and exactly one
synthetic withdrawal for Y with `assets = shares = 60`; the X→Y transfer
contributes nothing. -/
theorem claim_C6_transfer_inference_scenarioC (X Y : String)
    (hX : X ≠ zeroAddress) (hY : Y ≠ zeroAddress) :
    processTransferEvents
        [⟨zeroAddress, X, 100⟩, ⟨X, Y, 40⟩, ⟨Y, zeroAddress, 60⟩] =
      ([⟨X, X, 100, 100⟩], [⟨Y, Y, Y, 60, 60⟩]) := by
  simp [processTransferEvents, transferConvertStep, hX, hY]

/-- Witness for C6 at concrete addresses. -/
theorem claim_C6_witness :
    ("0xaaa" : String) ≠ zeroAddress ∧ ("0xbbb" : String) ≠ zeroAddress ∧
    processTransferEvents
        [⟨zeroAddress, "0xaaa", 100⟩, ⟨"0xaaa", "0xbbb", 40⟩, ⟨"0xbbb", zeroAddress, 60⟩] =
      ([⟨"0xaaa", "0xaaa", 100, 100⟩], [⟨"0xbbb", "0xbbb", "0xbbb", 60, 60⟩]) :=
  ⟨by decide, by decide,
    claim_C6_transfer_inference_scenarioC "0xaaa" "0xbbb" (by decide) (by decide)⟩

/-- Claim C9: `processTransferEvents` is a pure function of its transfer
list (equal inputs give equal synthetic event sets), and when every transfer
is between two non-zero addresses the result is empty in both components. -/
theorem claim_C9_transfer_inference_pure :
    (∀ ts1 ts2 : List TransferEvent, ts1 = ts2 →
        processTransferEvents ts1 = processTransferEvents ts2) ∧
    (∀ ts : List TransferEvent,
        (∀ t ∈ ts, t.fromAddr ≠ zeroAddress ∧ t.toAddr ≠ zeroAddress) →
        processTransferEvents ts = ([], [])) := by
  constructor
  · intro ts1 ts2 h; rw [h]
  · intro ts h
    exact transferFold_nonzero ts ([], []) h

/-- Witness for C9: a transfer set entirely between non-zero addresses
yields the empty synthetic event set. -/
theorem claim_C9_witness :
    (∀ t ∈ [(⟨"0xaaa", "0xbbb", 40⟩ : TransferEvent)],
        t.fromAddr ≠ zeroAddress ∧ t.toAddr ≠ zeroAddress) ∧
    processTransferEvents [⟨"0xaaa", "0xbbb", 40⟩] = ([], []) :=
  ⟨by decide, claim_C9_transfer_inference_pure.2 [⟨"0xaaa", "0xbbb", 40⟩] (by decide)⟩

/-- Claim C3: FALSE on src/block-discovery.js.  When a single-block interval
`[n, n]` persistently fails with the recognized range error, the midpoint is
the interval itself and `checkBlockRangeForActivity` recurses on identical
arguments: it never produces a value, for any amount of fuel (in JS: the
recursion only stops with a stack overflow; the provider error is never
propagated).  The app controller's copy does stop at the collapsed interval,
but it returns `false` after one query instead of propagating the error. -/
theorem claim_C3_single_block_range_error :
    (∀ fuel n,
        checkBlockRangeForActivity alwaysRangeErrProvider fuel n n = none) ∧
    (∀ n, checkBlockRangeForActivityApp alwaysRangeErrProvider 1 n n =
        some ([(n, n)], .ok false)) := by
  constructor
  · intro fuel n
    induction fuel with
    | zero => rfl
    | succ fuel ih =>
      have hr : isRangeSizeError ⟨"query exceeds max results"⟩ = true := by decide
      have hmid : (n + n) / 2 = n := by omega
      simp only [checkBlockRangeForActivity, alwaysRangeErrProvider, hr, if_true, hmid, ih]
  · intro n
    have hr : isRangeSizeErrorApp ⟨"query exceeds max results"⟩ = true := by decide
    have hmid : (n + n) / 2 = n := by omega
    simp [checkBlockRangeForActivityApp, alwaysRangeErrProvider, hr, hmid]

/-- Claim C4 (amended): in src/block-discovery.js, a provider failure whose
message is not the recognized range-size violation is re-thrown to the
caller after the single initial query — no splitting, no retry — while a
recognized range-size failure does split the interval at its midpoint and
query the two halves.  (The app controller's near-duplicate copy instead
swallows the non-range error: see the counterexample.) -/
theorem claim_C4_nonrange_error_propagates :
    (∀ (provider : Nat → Nat → Except JsError (List Nat)) (fromBlock toBlock fuel : Nat)
        (e : JsError),
        provider fromBlock toBlock = .error e →
        isRangeSizeError e = false →
        checkBlockRangeForActivity provider (fuel + 1) fromBlock toBlock =
          some ([(fromBlock, toBlock)], .error e)) ∧
    (∀ (provider : Nat → Nat → Except JsError (List Nat)) (fromBlock toBlock fuel : Nat)
        (e : JsError) (L1 L2 : List Nat),
        provider fromBlock toBlock = .error e →
        isRangeSizeError e = true →
        provider fromBlock ((fromBlock + toBlock) / 2) = .ok L1 →
        provider ((fromBlock + toBlock) / 2 + 1) toBlock = .ok L2 →
        checkBlockRangeForActivity provider (fuel + 2) fromBlock toBlock =
          some ([(fromBlock, toBlock), (fromBlock, (fromBlock + toBlock) / 2),
                 ((fromBlock + toBlock) / 2 + 1, toBlock)],
                .ok (decide (L1.length > 0) || decide (L2.length > 0)))) := by
  constructor
  · intro provider a b fuel e hp hr
    simp [checkBlockRangeForActivity, hp, hr]
  · intro provider a b fuel e L1 L2 hp hr h1 h2
    simp [checkBlockRangeForActivity, hp, hr, h1, h2]

/-- Witness for C4 at a concrete provider: a network error on [3, 7]
propagates unchanged after exactly one provider query. -/
theorem claim_C4_witness :
    netErrProvider 3 7 = .error ⟨"connection timeout"⟩ ∧
    isRangeSizeError ⟨"connection timeout"⟩ = false ∧
    checkBlockRangeForActivity netErrProvider 1 3 7 =
      some ([(3, 7)], .error ⟨"connection timeout"⟩) :=
  ⟨rfl, by decide,
    claim_C4_nonrange_error_propagates.1 netErrProvider 3 7 0 _ rfl (by decide)⟩

/-- Counterexample for C4 as universally stated: the app controller's copy
of `checkBlockRangeForActivity` (BLOCK_DISCOVERY_GUIDE.md lines 293-320)
does NOT propagate a non-range provider error — it catches it, logs it, and
returns `false` (an `ok` probe result) after the single query. -/
theorem claim_C4_counterexample :
    isRangeSizeErrorApp ⟨"connection timeout"⟩ = false ∧
    checkBlockRangeForActivityApp netErrProvider 1 3 7 = some ([(3, 7)], .ok false) ∧
    (some ([(3, 7)], .ok false) ≠
      some ([((3 : Nat), (7 : Nat))], (.error ⟨"connection timeout"⟩ : Except JsError Bool))) := by
  refine ⟨by decide, rfl, by simp⟩

/-- One block below `n` of the window starting at `a` is active iff some
offset hits it. -/
theorem anyInRange_eq_true_iff (act : Int → Bool) :
    ∀ (n : Nat) (a : Int),
      anyInRange act a n = true ↔ ∃ k : Nat, k < n ∧ act (a + k) = true := by
  intro n
  induction n with
  | zero => intro a; simp [anyInRange]
  | succ n ih =>
    intro a
    rw [anyInRange, Bool.or_eq_true, ih]
    constructor
    · rintro (h0 | ⟨k, hk, hact⟩)
      · exact ⟨0, by omega, by simpa using h0⟩
      · exact ⟨k + 1, by omega, by rw [show a + (k + 1 : Nat) = a + 1 + k by push_cast; ring]; exact hact⟩
    · rintro ⟨k, hk, hact⟩
      cases k with
      | zero => exact Or.inl (by simpa using hact)
      | succ k =>
        exact Or.inr ⟨k, by omega, by rw [show a + 1 + k = a + (k + 1 : Nat) by push_cast; ring]; exact hact⟩

/-- `hasActivityRange` for the Scenario A activity pattern, in closed form:
the window `[a, b]` meets `[800000, 800050]` iff it is nonempty and the two
intervals overlap. -/
theorem hasActivityRange_scenarioA (a b : Int) :
    hasActivityRange scenarioAAct a b =
      decide (a ≤ b ∧ a ≤ 800050 ∧ 800000 ≤ b) := by
  have h1 : hasActivityRange scenarioAAct a b = true ↔
      (a ≤ b ∧ a ≤ 800050 ∧ 800000 ≤ b) := by
    rw [hasActivityRange, anyInRange_eq_true_iff]
    constructor
    · rintro ⟨k, hk, hact⟩
      have hin : 800000 ≤ a + k ∧ a + k ≤ 800050 := by
        by_contra hc
        rw [show scenarioAAct (a + k) = decide (800000 ≤ a + (k : Int) ∧ a + k ≤ 800050) by
              simp [scenarioAAct]] at hact
        exact hc (by simpa using hact)
      omega
    · intro h
      refine ⟨(max a 800000 - a).toNat, by omega, ?_⟩
      rw [show a + ((max a 800000 - a).toNat : Int) = max a 800000 by omega]
      rw [show scenarioAAct (max a 800000) =
            decide (800000 ≤ max a 800000 ∧ max a 800000 ≤ 800050) by simp [scenarioAAct]]
      simp only [decide_eq_true_eq]
      omega
  by_cases hp : a ≤ b ∧ a ≤ 800050 ∧ 800000 ≤ b
  · simp [hp, h1.mpr hp]
  · rcases Bool.eq_false_or_eq_true (hasActivityRange scenarioAAct a b) with hb | hb
    · exact absurd (h1.mp hb) hp
    · simp [hp, hb]

/-- `hasActivityRange` for the two-spike activity pattern (blocks 0 and 50),
in closed form. -/
theorem hasActivityRange_twoSpikes (a b : Int) :
    hasActivityRange twoSpikesAct a b =
      decide ((a ≤ 0 ∧ 0 ≤ b) ∨ (a ≤ 50 ∧ 50 ≤ b)) := by
  have h1 : hasActivityRange twoSpikesAct a b = true ↔
      ((a ≤ 0 ∧ 0 ≤ b) ∨ (a ≤ 50 ∧ 50 ≤ b)) := by
    rw [hasActivityRange, anyInRange_eq_true_iff]
    constructor
    · rintro ⟨k, hk, hact⟩
      have hin : a + (k : Int) = 0 ∨ a + k = 50 := by
        by_contra hc
        rw [show twoSpikesAct (a + k) = decide (a + (k : Int) = 0 ∨ a + k = 50) by
              simp [twoSpikesAct]] at hact
        exact hc (by simpa using hact)
      omega
    · intro h
      rcases h with h | h
      · refine ⟨(-a).toNat, by omega, ?_⟩
        rw [show a + (((-a).toNat : Nat) : Int) = 0 by omega]
        simp [twoSpikesAct]
      · refine ⟨(50 - a).toNat, by omega, ?_⟩
        rw [show a + (((50 - a).toNat : Nat) : Int) = 50 by omega]
        simp [twoSpikesAct]
  by_cases hp : (a ≤ 0 ∧ 0 ≤ b) ∨ (a ≤ 50 ∧ 50 ≤ b)
  · simp [hp, h1.mpr hp]
  · rcases Bool.eq_false_or_eq_true (hasActivityRange twoSpikesAct a b) with hb | hb
    · exact absurd (h1.mp hb) hp
    · simp [hp, hb]

/-- One iteration of `binarySearchFirstActivity`'s loop with a missed window:
`left` jumps to `mid + maxBlockRange + 1`. -/
theorem bsFirstLoop_step_miss (act : Int → Bool) (fuel : Nat) (l r res mid : Int)
    (hm : (l + r).fdiv 2 = mid) (h : l ≤ r)
    (hh : hasActivityRange act mid (min (mid + (maxBlockRange : Int)) r) = false) :
    bsFirstLoop act (fuel + 1) l r res =
      bsFirstLoop act fuel (mid + (maxBlockRange : Int) + 1) r res := by
  simp only [bsFirstLoop, if_pos h, hm, hh]
  simp

/-- One iteration of `binarySearchFirstActivity`'s loop with a hit window:
`result` becomes `mid` and the search narrows to `[left, mid - 1]`. -/
theorem bsFirstLoop_step_hit (act : Int → Bool) (fuel : Nat) (l r res mid : Int)
    (hm : (l + r).fdiv 2 = mid) (h : l ≤ r)
    (hh : hasActivityRange act mid (min (mid + (maxBlockRange : Int)) r) = true) :
    bsFirstLoop act (fuel + 1) l r res = bsFirstLoop act fuel l (mid - 1) mid := by
  simp only [bsFirstLoop, if_pos h, hm, hh]
  simp

/-- The loop of `binarySearchFirstActivity` exits with the recorded result
once `left > right`. -/
theorem bsFirstLoop_stop (act : Int → Bool) (fuel : Nat) (l r res : Int)
    (h : ¬ l ≤ r) : bsFirstLoop act fuel l r res = some res := by
  cases fuel with
  | zero => rw [bsFirstLoop, if_neg h]
  | succ fuel => rw [bsFirstLoop, if_neg h]

/-- One iteration of `binarySearchLastActivity`'s loop with a missed window:
`right` drops to `mid - maxBlockRange - 1`. -/
theorem bsLastLoop_step_miss (act : Int → Bool) (fuel : Nat) (l r res mid : Int)
    (hm : (l + r).fdiv 2 = mid) (h : l ≤ r)
    (hh : hasActivityRange act (max (mid - (maxBlockRange : Int)) l) mid = false) :
    bsLastLoop act (fuel + 1) l r res =
      bsLastLoop act fuel l (mid - (maxBlockRange : Int) - 1) res := by
  simp only [bsLastLoop, if_pos h, hm, hh]
  simp

/-- One iteration of `binarySearchLastActivity`'s loop with a hit window:
`result` becomes `mid` and the search moves to `[mid + 1, right]`. -/
theorem bsLastLoop_step_hit (act : Int → Bool) (fuel : Nat) (l r res mid : Int)
    (hm : (l + r).fdiv 2 = mid) (h : l ≤ r)
    (hh : hasActivityRange act (max (mid - (maxBlockRange : Int)) l) mid = true) :
    bsLastLoop act (fuel + 1) l r res = bsLastLoop act fuel (mid + 1) r mid := by
  simp only [bsLastLoop, if_pos h, hm, hh]
  simp

/-- The loop of `binarySearchLastActivity` exits with the recorded result
once `left > right`. -/
theorem bsLastLoop_stop (act : Int → Bool) (fuel : Nat) (l r res : Int)
    (h : ¬ l ≤ r) : bsLastLoop act fuel l r res = some res := by
  cases fuel with
  | zero => rw [bsLastLoop, if_neg h]
  | succ fuel => rw [bsLastLoop, if_neg h]

/-- Claim C1 (Scenario A): FALSE on the code.  With watched events exactly in
blocks 800000-800050 of the span [0, 1000000], `binarySearchFirstActivity`
returns -1: its window probes [500000, 510000], [755000, 765000],
[882500, 892500], [946250, 956250], [978125, 988125], [994063, 1000000] all
miss the active region, because a missed window advances `left` beyond
`mid + maxBlockRange` although the blocks between `left` and `mid - 1` were
never probed.  `findActivityBoundaries` therefore returns the empty list and
`subdivideActiveRegion` is never reached — not the boundary pair
[800000, 800050] with one active chunk that the claim requires. -/
theorem claim_C1_scenarioA_discovery_returns_nothing :
    scenarioAAct 800000 = true ∧ scenarioAAct 800050 = true ∧
    scenarioAAct 799999 = false ∧ scenarioAAct 800051 = false ∧
    binarySearchFirstActivity scenarioAAct 40 0 1000000 = some (-1) ∧
    findActivityBoundaries scenarioAAct 40 0 1000000 = some [] := by
  have hfirst : binarySearchFirstActivity scenarioAAct 40 0 1000000 = some (-1) := by
    rw [binarySearchFirstActivity]
    calc bsFirstLoop scenarioAAct 40 0 1000000 (-1)
        = bsFirstLoop scenarioAAct 39 510001 1000000 (-1) :=
          bsFirstLoop_step_miss _ _ _ _ _ 500000 (by decide) (by decide)
            (by rw [hasActivityRange_scenarioA]; decide)
      _ = bsFirstLoop scenarioAAct 38 765001 1000000 (-1) :=
          bsFirstLoop_step_miss _ _ _ _ _ 755000 (by decide) (by decide)
            (by rw [hasActivityRange_scenarioA]; decide)
      _ = bsFirstLoop scenarioAAct 37 892501 1000000 (-1) :=
          bsFirstLoop_step_miss _ _ _ _ _ 882500 (by decide) (by decide)
            (by rw [hasActivityRange_scenarioA]; decide)
      _ = bsFirstLoop scenarioAAct 36 956251 1000000 (-1) :=
          bsFirstLoop_step_miss _ _ _ _ _ 946250 (by decide) (by decide)
            (by rw [hasActivityRange_scenarioA]; decide)
      _ = bsFirstLoop scenarioAAct 35 988126 1000000 (-1) :=
          bsFirstLoop_step_miss _ _ _ _ _ 978125 (by decide) (by decide)
            (by rw [hasActivityRange_scenarioA]; decide)
      _ = bsFirstLoop scenarioAAct 34 1004064 1000000 (-1) :=
          bsFirstLoop_step_miss _ _ _ _ _ 994063 (by decide) (by decide)
            (by rw [hasActivityRange_scenarioA]; decide)
      _ = some (-1) := bsFirstLoop_stop _ _ _ _ _ (by decide)
  refine ⟨rfl, rfl, rfl, rfl, hfirst, ?_⟩
  rw [findActivityBoundaries, hfirst]
  simp

/-- Claim C2: FALSE on the code.  With watched events exactly at blocks 0 and
50 of the span [0, 100], the search pair returns the boundary [50, 75]:
block 0, outside the returned boundary pair, contains a watched event (and
block 75, the returned last boundary, does not) — contradicting "every block
outside [first, last] contains no watched event". -/
theorem claim_C2_boundaries_miss_activity :
    twoSpikesAct 0 = true ∧ twoSpikesAct 75 = false ∧
    findActivityBoundaries twoSpikesAct 40 0 100 = some [⟨50, 75, 26⟩] := by
  have hfirst : binarySearchFirstActivity twoSpikesAct 40 0 100 = some 50 := by
    rw [binarySearchFirstActivity]
    calc bsFirstLoop twoSpikesAct 40 0 100 (-1)
        = bsFirstLoop twoSpikesAct 39 0 49 50 :=
          bsFirstLoop_step_hit _ _ _ _ _ 50 (by decide) (by decide)
            (by rw [hasActivityRange_twoSpikes]; decide)
      _ = bsFirstLoop twoSpikesAct 38 10025 49 50 :=
          bsFirstLoop_step_miss _ _ _ _ _ 24 (by decide) (by decide)
            (by rw [hasActivityRange_twoSpikes]; decide)
      _ = some 50 := bsFirstLoop_stop _ _ _ _ _ (by decide)
  have hlast : binarySearchLastActivity twoSpikesAct 40 50 100 = some 75 := by
    rw [binarySearchLastActivity]
    calc bsLastLoop twoSpikesAct 40 50 100 50
        = bsLastLoop twoSpikesAct 39 76 100 75 :=
          bsLastLoop_step_hit _ _ _ _ _ 75 (by decide) (by decide)
            (by rw [hasActivityRange_twoSpikes]; decide)
      _ = bsLastLoop twoSpikesAct 38 76 (-9913) 75 :=
          bsLastLoop_step_miss _ _ _ _ _ 88 (by decide) (by decide)
            (by rw [hasActivityRange_twoSpikes]; decide)
      _ = some 75 := bsLastLoop_stop _ _ _ _ _ (by decide)
  refine ⟨rfl, rfl, ?_⟩
  rw [findActivityBoundaries, hfirst]
  simp only [show ¬((50 : Int) = -1) by decide, if_neg, ite_false]
  rw [hlast]
  decide

/-- Claim C7 (Scenario B): when the chunk query [5000, 6999] fails, the
scanner splits that chunk exactly once at its midpoint — the provider-query
trace is exactly [(5000, 6999), (5000, 5999), (6000, 6999)] — and classifies
the concatenation of the two halves' logs; if the second half also fails,
only its logs are lost (the sub-chunk is skipped) and the scan still
completes on the first half's logs. -/
theorem claim_C7_chunk_split_union {L : Type}
    (provider : Nat → Nat → Except JsError (List L)) (parse : L → Option String)
    (e e2 : JsError) (L1 L2 : List L)
    (h0 : provider 5000 6999 = .error e) :
    (provider 5000 5999 = .ok L1 → provider 6000 6999 = .ok L2 →
      scanByChunksWithTopics provider parse 5000 6999 =
        ((L1 ++ L2).foldl (classifyLog parse) ([], [], []),
         [(5000, 6999), (5000, 5999), (6000, 6999)])) ∧
    (provider 5000 5999 = .ok L1 → provider 6000 6999 = .error e2 →
      scanByChunksWithTopics provider parse 5000 6999 =
        (L1.foldl (classifyLog parse) ([], [], []),
         [(5000, 6999), (5000, 5999), (6000, 6999)])) := by
  constructor
  · intro h1 h2
    rw [scanByChunksWithTopics]
    rw [scanChunksLoop]
    norm_num [scanChunkSize, h0, h1, h2]
    rw [scanChunksLoop]
    norm_num
  · intro h1 h2
    rw [scanByChunksWithTopics]
    rw [scanChunksLoop]
    norm_num [scanChunkSize, h0, h1, h2]
    rw [scanChunksLoop]
    norm_num

/-- Witness for C7 at a concrete provider and decoder: log 0 (a Deposit)
comes from the first half, logs 1 and 2 (Transfers) from the second; the
result is their union, and the trace shows the single midpoint split. -/
theorem claim_C7_witness :
    scenarioBProvider 5000 6999 = .error ⟨"query exceeds max results"⟩ ∧
    scenarioBProvider 5000 5999 = .ok [0] ∧
    scenarioBProvider 6000 6999 = .ok [1, 2] ∧
    scanByChunksWithTopics scenarioBProvider scenarioBParse 5000 6999 =
      (([0], [], [1, 2]), [(5000, 6999), (5000, 5999), (6000, 6999)]) := by
  refine ⟨rfl, rfl, rfl, ?_⟩
  have h := (claim_C7_chunk_split_union scenarioBProvider scenarioBParse
      ⟨"query exceeds max results"⟩ ⟨""⟩ [0] [1, 2] rfl).1 rfl rfl
  rw [h]
  decide

/-- Claim C5 (Scenario D): a deposit of 100 at T1 followed by a withdrawal of
30 at T2 > T1 for the same address X, applied to a fresh ledger, yields an
entry for X with totalDeposits 100, totalWithdrawals 30, net position 70,
firstActivity T1, lastActivity T2 and both counts 1; and applying a
withdrawal to any ledger never changes an existing entry's `firstDeposit`
(so never moves it backward), `totalDeposits` or `depositCount`. -/
theorem claim_C5_ledger_scenarioD (X : String) (t1 t2 : Nat) (s1 s2 : Int)
    (h : t1 < t2) :
    (∃ m p, processRealEventData id [⟨X, 100, s1, t1⟩] [⟨X, 30, s2, t2⟩] = .ok m ∧
        m X = some p ∧ p.totalDeposits = 100 ∧ p.totalWithdrawals = 30 ∧
        netAssets p = 70 ∧ p.firstDeposit = t1 ∧ p.lastActivity = t2 ∧
        p.depositCount = 1 ∧ p.withdrawalCount = 1) ∧
    (∀ (ts : Nat → Nat) (m : AddressMap) (event : VaultEvent) (k : String)
        (p : PositionData), m k = some p →
        (applyWithdrawEvent ts m event k).map PositionData.firstDeposit =
            some p.firstDeposit ∧
        (applyWithdrawEvent ts m event k).map PositionData.totalDeposits =
            some p.totalDeposits ∧
        (applyWithdrawEvent ts m event k).map PositionData.depositCount =
            some p.depositCount) := by
  constructor
  · have hm1 : (List.foldl (applyDepositEvent id) (fun _ => none) [⟨X, 100, s1, t1⟩]) =
        (fun k => if k = X then some ⟨X, 100, 0, s1, t1, t1, 1, 0⟩ else none) := by
      funext k
      simp [applyDepositEvent, seedPosition]
    have hm2 : (List.foldl (applyWithdrawEvent id)
          (List.foldl (applyDepositEvent id) (fun _ => none) [⟨X, 100, s1, t1⟩])
          [⟨X, 30, s2, t2⟩]) =
        (fun k => if k = X then some ⟨X, 100, 30, s1 - s2, t1, t2, 1, 1⟩ else none) := by
      rw [hm1]
      funext k
      by_cases hX : k = X
      · subst hX
        simp [applyWithdrawEvent, h]
      · simp [applyWithdrawEvent, hX]
    refine ⟨fun k => if k = X then some ⟨X, 100, 30, s1 - s2, t1, t2, 1, 1⟩ else none,
      ⟨X, 100, 30, s1 - s2, t1, t2, 1, 1⟩, ?_, ?_, rfl, rfl,
      by norm_num [netAssets], rfl, rfl, rfl, rfl⟩
    · rw [processRealEventData, if_neg (by simp)]
      exact congrArg Except.ok hm2
    · simp
  · intro ts m event k p hp
    by_cases hk : k = event.owner
    · subst hk
      simp only [applyWithdrawEvent, hp, Option.getD_some]
      constructor
      · by_cases hl : p.lastActivity < ts event.blockNumber <;> simp [hl]
      constructor
      · by_cases hl : p.lastActivity < ts event.blockNumber <;> simp [hl]
      · by_cases hl : p.lastActivity < ts event.blockNumber <;> simp [hl]
    · have : applyWithdrawEvent ts m event k = m k := by
        simp [applyWithdrawEvent, hk]
      rw [this, hp]
      exact ⟨rfl, rfl, rfl⟩

/-- Witness for C5 at X = "0xdepositor", T1 = 11, T2 = 22, shares 100/30. -/
theorem claim_C5_witness :
    (11 : Nat) < 22 ∧
    ((∃ m p, processRealEventData id
          [⟨"0xdepositor", 100, 100, 11⟩] [⟨"0xdepositor", 30, 30, 22⟩] = .ok m ∧
        m "0xdepositor" = some p ∧ p.totalDeposits = 100 ∧ p.totalWithdrawals = 30 ∧
        netAssets p = 70 ∧ p.firstDeposit = 11 ∧ p.lastActivity = 22 ∧
        p.depositCount = 1 ∧ p.withdrawalCount = 1) ∧
     (∀ (ts : Nat → Nat) (m : AddressMap) (event : VaultEvent) (k : String)
        (p : PositionData), m k = some p →
        (applyWithdrawEvent ts m event k).map PositionData.firstDeposit =
            some p.firstDeposit ∧
        (applyWithdrawEvent ts m event k).map PositionData.totalDeposits =
            some p.totalDeposits ∧
        (applyWithdrawEvent ts m event k).map PositionData.depositCount =
            some p.depositCount)) :=
  ⟨by decide, claim_C5_ledger_scenarioD "0xdepositor" 11 22 100 30 (by decide)⟩

/-- Unfolding of `subdivideLoop` while the walker is inside the region. -/
theorem subdivideLoop_eq_pos (hasAct : Nat → Nat → Bool) (e i : Nat) (hie : i ≤ e) :
    subdivideLoop hasAct e i =
      if hasAct i (min (i + subdivideChunkSize - 1) e) then
        ⟨i, min (i + subdivideChunkSize - 1) e, min (i + subdivideChunkSize - 1) e - i + 1⟩ ::
          subdivideLoop hasAct e (i + subdivideChunkSize)
      else subdivideLoop hasAct e (i + subdivideChunkSize) := by
  rw [subdivideLoop, dif_pos hie]

/-- Unfolding of `subdivideLoop` once the walker has passed `endBlock`. -/
theorem subdivideLoop_eq_neg (hasAct : Nat → Nat → Bool) (e i : Nat) (hie : ¬ i ≤ e) :
    subdivideLoop hasAct e i = [] := by
  rw [subdivideLoop, dif_neg hie]

/-- Every range emitted by the subdivision walker starting at `i` starts at
or after `i`, is well-formed, stays inside `[i, e]`, spans at most one chunk,
and records its own length in `blocks`. -/
theorem subdivideLoop_mem (hasAct : Nat → Nat → Bool) (e : Nat) :
    ∀ (n i : Nat), e + 1 - i ≤ n →
      ∀ r ∈ subdivideLoop hasAct e i,
        i ≤ r.start ∧ r.start ≤ r.stop ∧ r.stop ≤ e ∧
        r.stop + 1 ≤ r.start + subdivideChunkSize ∧ r.blocks = r.stop - r.start + 1 := by
  intro n
  induction n with
  | zero =>
    intro i hn r hr
    rw [subdivideLoop_eq_neg hasAct e i (by omega)] at hr
    simp at hr
  | succ n ih =>
    intro i hn r hr
    have hc : subdivideChunkSize = 5000 := rfl
    by_cases hie : i ≤ e
    · rw [subdivideLoop_eq_pos hasAct e i hie] at hr
      by_cases hact : hasAct i (min (i + subdivideChunkSize - 1) e) = true
      · rw [if_pos hact] at hr
        rcases List.mem_cons.mp hr with hEq | hmem
        · subst hEq
          dsimp only
          omega
        · have := ih (i + subdivideChunkSize) (by omega) r hmem
          omega
      · rw [if_neg hact] at hr
        have := ih (i + subdivideChunkSize) (by omega) r hr
        omega
    · rw [subdivideLoop_eq_neg hasAct e i hie] at hr
      simp at hr

/-- The subdivision walker emits its ranges in strictly increasing,
pairwise-disjoint order. -/
theorem subdivideLoop_pairwise (hasAct : Nat → Nat → Bool) (e : Nat) :
    ∀ (n i : Nat), e + 1 - i ≤ n →
      List.Pairwise (fun r r' => r.stop < r'.start) (subdivideLoop hasAct e i) := by
  intro n
  induction n with
  | zero =>
    intro i hn
    rw [subdivideLoop_eq_neg hasAct e i (by omega)]
    exact List.Pairwise.nil
  | succ n ih =>
    intro i hn
    have hc : subdivideChunkSize = 5000 := rfl
    by_cases hie : i ≤ e
    · rw [subdivideLoop_eq_pos hasAct e i hie]
      by_cases hact : hasAct i (min (i + subdivideChunkSize - 1) e) = true
      · rw [if_pos hact]
        refine List.Pairwise.cons ?_ (ih (i + subdivideChunkSize) (by omega))
        intro r' hr'
        have := subdivideLoop_mem hasAct e (e + 1 - (i + subdivideChunkSize))
          (i + subdivideChunkSize) (le_refl _) r' hr'
        dsimp only
        omega
      · rw [if_neg hact]
        exact ih (i + subdivideChunkSize) (by omega)
    · rw [subdivideLoop_eq_neg hasAct e i hie]
      exact List.Pairwise.nil

/-- Claim C10: for every activity oracle and every region, the range list
returned by `subdivideActiveRegion` consists of well-formed ranges inside
`[startBlock, endBlock]`, each spanning at most the chunk size of 5000
blocks with `blocks = stop - start + 1`, and the list is strictly
increasing with pairwise-disjoint ranges. -/
theorem claim_C10_subdivide_invariants (hasAct : Nat → Nat → Bool)
    (startBlock endBlock : Nat) :
    (∀ r ∈ subdivideActiveRegion hasAct startBlock endBlock,
        startBlock ≤ r.start ∧ r.start ≤ r.stop ∧ r.stop ≤ endBlock ∧
        r.stop - r.start + 1 ≤ 5000 ∧ r.blocks = r.stop - r.start + 1) ∧
    List.Pairwise (fun r r' => r.stop < r'.start)
      (subdivideActiveRegion hasAct startBlock endBlock) := by
  constructor
  · intro r hr
    have := subdivideLoop_mem hasAct endBlock (endBlock + 1 - startBlock)
      startBlock (le_refl _) r hr
    have hc : subdivideChunkSize = 5000 := rfl
    omega
  · exact subdivideLoop_pairwise hasAct endBlock (endBlock + 1 - startBlock)
      startBlock (le_refl _)

/-- The `ranges` accumulator of `consolidateBlockRanges` is a pure prefix of
the final output. -/
theorem consolidateLoop_append (g : Nat) :
    ∀ (l : List Nat) (acc : List BlockRange) (s e : Nat),
      consolidateLoop g acc s e l = acc ++ consolidateLoop g [] s e l := by
  intro l
  induction l with
  | nil => intro acc s e; simp [consolidateLoop]
  | cons c rest ih =>
    intro acc s e
    by_cases hg : c - e ≤ g
    · simp only [consolidateLoop, if_pos hg]
      exact ih acc s c
    · simp only [consolidateLoop, if_neg hg]
      rw [ih (acc ++ [(⟨s, e⟩ : BlockRange)]) c c, ih ([] ++ [(⟨s, e⟩ : BlockRange)]) c c]
      simp [List.append_assoc]

/-- The first interval returned by the consolidation loop starts at the
current `rangeStart` and ends at or after the current `rangeEnd`. -/
theorem consolidateLoop_head (g : Nat) :
    ∀ (l : List Nat) (s e : Nat), List.Chain' (· ≤ ·) (e :: l) →
      ∃ e2 tail, consolidateLoop g [] s e l = ⟨s, e2⟩ :: tail ∧ e ≤ e2 := by
  intro l
  induction l with
  | nil =>
    intro s e _
    exact ⟨e, [], by simp [consolidateLoop], le_refl e⟩
  | cons c rest ih =>
    intro s e hch
    obtain ⟨hec, hch'⟩ := List.chain'_cons.mp hch
    by_cases hg : c - e ≤ g
    · have hres : consolidateLoop g [] s e (c :: rest) = consolidateLoop g [] s c rest := by
        simp [consolidateLoop, hg]
      obtain ⟨e2, tail, heq, hce2⟩ := ih s c hch'
      exact ⟨e2, tail, by rw [hres, heq], le_trans hec hce2⟩
    · have hres : consolidateLoop g [] s e (c :: rest) =
          ⟨s, e⟩ :: consolidateLoop g [] c c rest := by
        have h1 : consolidateLoop g [] s e (c :: rest) =
            consolidateLoop g [⟨s, e⟩] c c rest := by
          simp [consolidateLoop, hg]
        rw [h1, consolidateLoop_append g rest [⟨s, e⟩] c c]
        rfl
      exact ⟨e, consolidateLoop g [] c c rest, hres, le_refl e⟩

/-- Coverage: every block number already absorbed into `[s, e]` and every
remaining input block lands inside some returned interval. -/
theorem consolidateLoop_cover (g : Nat) :
    ∀ (l : List Nat) (s e : Nat), s ≤ e → List.Chain' (· ≤ ·) (e :: l) →
      ∀ x : Nat, ((s ≤ x ∧ x ≤ e) ∨ x ∈ l) →
        ∃ r ∈ consolidateLoop g [] s e l, r.start ≤ x ∧ x ≤ r.stop := by
  intro l
  induction l with
  | nil =>
    intro s e hse _ x hx
    rcases hx with ⟨h1, h2⟩ | h
    · exact ⟨⟨s, e⟩, by simp [consolidateLoop], h1, h2⟩
    · simp at h
  | cons c rest ih =>
    intro s e hse hch x hx
    obtain ⟨hec, hch'⟩ := List.chain'_cons.mp hch
    by_cases hg : c - e ≤ g
    · have hres : consolidateLoop g [] s e (c :: rest) = consolidateLoop g [] s c rest := by
        simp [consolidateLoop, hg]
      rw [hres]
      apply ih s c (le_trans hse hec) hch'
      rcases hx with ⟨h1, h2⟩ | h
      · exact Or.inl ⟨h1, le_trans h2 hec⟩
      · rcases List.mem_cons.mp h with heq | hmem
        · exact Or.inl ⟨by omega, by omega⟩
        · exact Or.inr hmem
    · have hres : consolidateLoop g [] s e (c :: rest) =
          ⟨s, e⟩ :: consolidateLoop g [] c c rest := by
        have h1 : consolidateLoop g [] s e (c :: rest) =
            consolidateLoop g [⟨s, e⟩] c c rest := by
          simp [consolidateLoop, hg]
        rw [h1, consolidateLoop_append g rest [⟨s, e⟩] c c]
        rfl
      rw [hres]
      rcases hx with ⟨h1, h2⟩ | h
      · exact ⟨⟨s, e⟩, List.mem_cons_self _ _, h1, h2⟩
      · rcases List.mem_cons.mp h with heq | hmem
        · obtain ⟨r, hr, ha, hb⟩ := ih c c (le_refl c) hch' x (Or.inl ⟨by omega, by omega⟩)
          exact ⟨r, List.mem_cons_of_mem _ hr, ha, hb⟩
        · obtain ⟨r, hr, ha, hb⟩ := ih c c (le_refl c) hch' x (Or.inr hmem)
          exact ⟨r, List.mem_cons_of_mem _ hr, ha, hb⟩

/-- `gapBoundaryRel` is stable under prepending an interval to the result. -/
theorem gapBoundaryRel_cons (g : Nat) (q : BlockRange) (res : List BlockRange)
    (x y : Nat) (h : gapBoundaryRel g res x y) : gapBoundaryRel g (q :: res) x y := by
  unfold gapBoundaryRel at h ⊢
  by_cases hg : y - x ≤ g
  · rw [if_pos hg] at h ⊢
    obtain ⟨r, hr, h1, h2⟩ := h
    exact ⟨r, List.mem_cons_of_mem _ hr, h1, h2⟩
  · rw [if_neg hg] at h ⊢
    obtain ⟨pre, ra, rb, post, heq, h1, h2⟩ := h
    exact ⟨q :: pre, ra, rb, post, by rw [heq]; rfl, h1, h2⟩

/-- Along the sorted input, consecutive blocks with a small gap share a
returned interval, and a gap above the threshold falls exactly on the
boundary between two adjacent returned intervals. -/
theorem consolidateLoop_chain (g : Nat) :
    ∀ (l : List Nat) (s e : Nat), s ≤ e → List.Chain' (· ≤ ·) (e :: l) →
      List.Chain' (gapBoundaryRel g (consolidateLoop g [] s e l)) (e :: l) := by
  intro l
  induction l with
  | nil => intro s e _ _; simp
  | cons c rest ih =>
    intro s e hse hch
    obtain ⟨hec, hch'⟩ := List.chain'_cons.mp hch
    by_cases hg : c - e ≤ g
    · have hres : consolidateLoop g [] s e (c :: rest) = consolidateLoop g [] s c rest := by
        simp [consolidateLoop, hg]
      rw [hres]
      refine List.chain'_cons.mpr ⟨?_, ih s c (le_trans hse hec) hch'⟩
      obtain ⟨e2, tail, heq, hce2⟩ := consolidateLoop_head g rest s c hch'
      unfold gapBoundaryRel
      rw [if_pos hg]
      exact ⟨⟨s, e2⟩, by rw [heq]; exact List.mem_cons_self _ _, hse, hce2⟩
    · have hres : consolidateLoop g [] s e (c :: rest) =
          ⟨s, e⟩ :: consolidateLoop g [] c c rest := by
        have h1 : consolidateLoop g [] s e (c :: rest) =
            consolidateLoop g [⟨s, e⟩] c c rest := by
          simp [consolidateLoop, hg]
        rw [h1, consolidateLoop_append g rest [⟨s, e⟩] c c]
        rfl
      rw [hres]
      refine List.chain'_cons.mpr ⟨?_, ?_⟩
      · obtain ⟨e2, tail, heq, hce2⟩ := consolidateLoop_head g rest c c hch'
        unfold gapBoundaryRel
        rw [if_neg hg]
        exact ⟨[], ⟨s, e⟩, ⟨c, e2⟩, tail, by rw [heq]; rfl, rfl, rfl⟩
      · exact (ih c c (le_refl c) hch').imp
          (fun a b h => gapBoundaryRel_cons g ⟨s, e⟩ _ a b h)

/-- Claim C8: `consolidateBlockRanges` clusters a sorted block-number list:
the empty input yields the empty list; every input block lies inside some
returned interval; and along consecutive input blocks, a gap of at most
`maxGap` keeps both blocks in one returned interval while a gap exceeding
`maxGap` is exactly where one returned interval ends (at the earlier block)
and the next begins (at the later block). -/
theorem claim_C8_consolidate_clusters :
    (∀ g, consolidateBlockRanges [] g = []) ∧
    (∀ (blockNumbers : List Nat) (maxGap : Nat),
      List.Chain' (· ≤ ·) blockNumbers →
      ((∀ x ∈ blockNumbers,
          ∃ r ∈ consolidateBlockRanges blockNumbers maxGap, r.start ≤ x ∧ x ≤ r.stop) ∧
       List.Chain' (gapBoundaryRel maxGap (consolidateBlockRanges blockNumbers maxGap))
         blockNumbers)) := by
  constructor
  · intro g; rfl
  · intro l g hch
    cases l with
    | nil => exact ⟨by simp, by simp [consolidateBlockRanges]⟩
    | cons b rest =>
      constructor
      · intro x hx
        rcases List.mem_cons.mp hx with heq | hmem
        · exact consolidateLoop_cover g rest b b (le_refl b) hch x (Or.inl ⟨by omega, by omega⟩)
        · exact consolidateLoop_cover g rest b b (le_refl b) hch x (Or.inr hmem)
      · exact consolidateLoop_chain g rest b b (le_refl b) hch

/-- Witness for C8 at a concrete sorted input: [1, 3, 200, 205] with
maxGap 100 clusters into [1, 3] and [200, 205]. -/
theorem claim_C8_witness :
    List.Chain' (· ≤ ·) [1, 3, 200, 205] ∧
    ((∀ x ∈ [1, 3, 200, 205],
        ∃ r ∈ consolidateBlockRanges [1, 3, 200, 205] 100, r.start ≤ x ∧ x ≤ r.stop) ∧
     List.Chain' (gapBoundaryRel 100 (consolidateBlockRanges [1, 3, 200, 205] 100))
       [1, 3, 200, 205]) :=
  ⟨by norm_num [List.chain'_cons], claim_C8_consolidate_clusters.2 [1, 3, 200, 205] 100
    (by norm_num [List.chain'_cons])⟩
